import Mathlib

/-!
Verification of the leaderboard backend in `backend/server.py`.

The backend is three request handlers over one MongoDB collection
(`game_sessions`): `create_game_session` (POST /game/session),
`get_leaderboard` (GET /game/leaderboard) and `get_stats` (GET /game/stats).
We embed them shallowly: the collection is a list of documents carried in an
explicit server state, pydantic request validation is a total function on an
explicit JSON-like value type, MongoDB's `sort`/`limit`/`$avg`/`$max`
primitives are modelled by their documented semantics on lists, Python
floating-point numbers are modelled by exact rationals, and Python's `round`
by round-half-to-even on rationals.
-/

/-- JSON-like value as it appears in a request payload, the way pydantic
receives it. Exponent forms, infinities and NaN are outside the model. -/
inductive Value where
  | vint (n : Int)
  | vfloat (q : ℚ)
  | vstr (s : String)
  | vnull
deriving DecidableEq, Repr

/-- Numeric value of a digit string, most significant digit first. -/
def digitsVal (cs : List Char) : Nat :=
  cs.foldl (fun a c => a * 10 + (c.toNat - 48)) 0

/-- Parse an unsigned decimal literal (digits, optionally with one decimal
point) into an exact rational; `none` when the characters are not such a
literal. -/
def parseUnsigned (cs : List Char) : Option ℚ :=
  let ip := cs.takeWhile (fun c => c.isDigit)
  let rest := cs.dropWhile (fun c => c.isDigit)
  match rest with
  | [] => if ip = [] then none else some (digitsVal ip : ℚ)
  | c :: fp =>
    if c = '.' ∧ fp.all (fun d => d.isDigit) ∧ ¬(ip = [] ∧ fp = []) then
      some ((digitsVal ip : ℚ) + (digitsVal fp : ℚ) / (10 : ℚ) ^ fp.length)
    else none

/-- Parse a signed decimal literal. Models the numeric-string parsing that
pydantic's lax mode applies to `int`- and `float`-typed fields. -/
def parseDecimal (s : String) : Option ℚ :=
  match s.data with
  | '-' :: cs => (parseUnsigned cs).map (fun q => -q)
  | '+' :: cs => parseUnsigned cs
  | cs => parseUnsigned cs

/-- Pydantic lax coercion of a payload value to `int`: integers pass through,
floats and numeric strings are accepted exactly when their value is integral,
everything else is rejected. -/
def coerceInt : Value → Option Int
  | Value.vint n => some n
  | Value.vfloat q => if q.den = 1 then some q.num else none
  | Value.vstr s =>
    match parseDecimal s with
    | some q => if q.den = 1 then some q.num else none
    | none => none
  | Value.vnull => none

/-- Pydantic lax coercion of a payload value to `float`: integers and floats
pass through, numeric strings are parsed, everything else is rejected. -/
def coerceFloat : Value → Option ℚ
  | Value.vint n => some (n : ℚ)
  | Value.vfloat q => some q
  | Value.vstr s => parseDecimal s
  | Value.vnull => none

/-- An ingest request body: each declared field may be absent, and the body
may carry extra fields, which pydantic's default config ignores. -/
structure Payload where
  score : Option Value
  survival_time : Option Value
  complexity_peak : Option Value
  extra : List (String × Value) := []
deriving DecidableEq, Repr

/-- Structured validation failure naming the fields that failed, as pydantic's
ValidationError reports them. -/
structure ValidationError where
  loc : List String
deriving DecidableEq, Repr

/-- Model of the pydantic request model `GameSessionCreate`: the three
declared, required fields of an ingest request. -/
structure GameSessionCreate where
  score : Int
  survival_time : ℚ
  complexity_peak : ℚ
deriving DecidableEq, Repr

/-- Validation of an ingest body against `GameSessionCreate`: every declared
field must be present and coercible to its declared type; extra fields are
ignored. -/
def GameSessionCreate.validate (p : Payload) : Except ValidationError GameSessionCreate :=
  let os := p.score.bind coerceInt
  let ot := p.survival_time.bind coerceFloat
  let oc := p.complexity_peak.bind coerceFloat
  match os, ot, oc with
  | some s, some t, some c => Except.ok ⟨s, t, c⟩
  | _, _, _ =>
    Except.error ⟨(if os.isSome then [] else ["score"]) ++
      (if ot.isSome then [] else ["survival_time"]) ++
      (if oc.isSome then [] else ["complexity_peak"])⟩

/-- Fresh session identifier. The source calls `str(uuid.uuid4())`, an
external randomness source assumed to return globally unique strings; we
model it as an injective function of a per-server counter threaded through
the state. -/
def uuidString (k : Nat) : String := String.mk (List.replicate (k + 1) 'u')

/-- The persisted `GameSession` document. `timestamp` (a UTC instant,
`datetime.now(timezone.utc)`) is modelled as a rational number of seconds;
its round trip through `isoformat` is modelled as the identity. -/
structure GameSession where
  session_id : String
  score : Int
  survival_time : ℚ
  complexity_peak : ℚ
  timestamp : ℚ
deriving DecidableEq, Repr

/-- Server state: the `game_sessions` collection (in insertion order) plus
the counter feeding `uuidString`. -/
structure ServerState where
  game_sessions : List GameSession
  nextId : Nat
deriving DecidableEq, Repr

/-- Outcome of a POST /game/session request. -/
inductive IngestResult where
  | created (s : GameSession)
  | validationError (e : ValidationError)
deriving DecidableEq, Repr

/-- Handler for POST /game/session: validate the body, build a `GameSession`
with a fresh id and the current time, insert the one document, and return the
created record. A validation failure happens before any write. -/
def create_game_session (now : ℚ) (p : Payload) (st : ServerState) :
    IngestResult × ServerState :=
  match GameSessionCreate.validate p with
  | Except.error e => (IngestResult.validationError e, st)
  | Except.ok input =>
    let session_obj : GameSession :=
      { session_id := uuidString st.nextId
        score := input.score
        survival_time := input.survival_time
        complexity_peak := input.complexity_peak
        timestamp := now }
    (IngestResult.created session_obj,
      { game_sessions := st.game_sessions ++ [session_obj], nextId := st.nextId + 1 })

/-- Response model `LeaderboardEntry`: exactly the four projected document
fields plus the computed rank; the stored `timestamp` is not among them. -/
structure LeaderboardEntry where
  session_id : String
  score : Int
  survival_time : ℚ
  complexity_peak : ℚ
  rank : Option Int := none
deriving DecidableEq, Repr

/-- Ordering used by `.sort("score", -1)`: `a` may precede `b` exactly when
`a.score ≥ b.score`. MongoDB promises only this score-descending order, with
no defined order among ties; we realise it with a concrete stable sort. -/
def scoreDescRel (a b : GameSession) : Prop := b.score ≤ a.score

instance : DecidableRel scoreDescRel :=
  fun a b => inferInstanceAs (Decidable (b.score ≤ a.score))

instance : IsTrans GameSession scoreDescRel :=
  ⟨fun _ _ _ hab hbc => le_trans hbc hab⟩

instance : IsTotal GameSession scoreDescRel :=
  ⟨fun a b => le_total b.score a.score⟩

/-- Projection of a stored session to a `LeaderboardEntry` with a given rank,
as performed by the handler loop plus the `response_model` filtering. -/
def entryOf (rank : Int) (s : GameSession) : LeaderboardEntry :=
  { session_id := s.session_id, score := s.score, survival_time := s.survival_time,
    complexity_peak := s.complexity_peak, rank := some rank }

/-- Failure of the store client inside the leaderboard handler: motor's
`to_list(length)` raises `ValueError` for a negative `length`, which the
handler does not catch. -/
inductive MotorError where
  | negativeLength
deriving DecidableEq, Repr

/-- Handler for GET /game/leaderboard with an already-validated `limit`:
`find().sort("score", -1).limit(limit).to_list(limit)` followed by the
rank-assigning enumeration. For `limit ≥ 0` the chain returns the first
`limit` documents of the score-descending order (`limit = 0` because
`to_list(0)` collects nothing); for `limit < 0`, `to_list` raises. -/
def get_leaderboard (limit : Int) (st : ServerState) :
    Except MotorError (List LeaderboardEntry) :=
  if limit < 0 then Except.error MotorError.negativeLength
  else
    Except.ok ((((st.game_sessions.insertionSort scoreDescRel).take limit.toNat).enum).map
      (fun p => entryOf (p.1 + 1) p.2))

/-- Observable outcome of a GET /game/leaderboard request. -/
inductive LeaderboardResult where
  | validationError
  | serverError
  | ok (entries : List LeaderboardEntry)
deriving DecidableEq, Repr

/-- Full GET /game/leaderboard request: FastAPI parses the optional `limit`
query string through pydantic's `int` coercion (the declaration
`limit: int = 10` carries no positivity constraint), defaulting to 10 when
absent, then runs the handler; an uncaught store-client error surfaces as a
server error. -/
def leaderboard_request (limitParam : Option String) (st : ServerState) :
    LeaderboardResult :=
  let lim : Option Int :=
    match limitParam with
    | none => some 10
    | some s => coerceInt (Value.vstr s)
  match lim with
  | none => LeaderboardResult.validationError
  | some n =>
    match get_leaderboard n st with
    | Except.error _ => LeaderboardResult.serverError
    | Except.ok es => LeaderboardResult.ok es

/-- Response of GET /game/stats. -/
structure StatsResponse where
  total_games : Nat
  avg_score : ℚ
  avg_survival_time : ℚ
  highest_score : Int
deriving DecidableEq, Repr

/-- MongoDB's `$avg` accumulator over a group: the arithmetic mean. -/
def mongoAvg (xs : List ℚ) : ℚ := xs.sum / (xs.length : ℚ)

/-- MongoDB's `$max` accumulator over a group: the maximum of the values. -/
def mongoMax (xs : List Int) : Int :=
  match xs with
  | [] => 0
  | x :: rest => rest.foldl max x

/-- Floor of a rational, written out on the numerator and denominator (`ℚ`
keeps `den` positive, so flooring division of `num` by `den` is the floor). -/
def ratFloor (q : ℚ) : Int := q.num.fdiv (q.den : Int)

/-- Round a rational to the nearest integer, ties to even, as Python's
`round` does. -/
def roundHalfEven (q : ℚ) : Int :=
  let n := ratFloor q
  if q - n < 1 / 2 then n
  else if 1 / 2 < q - n then n + 1
  else if n % 2 = 0 then n else n + 1

/-- Python's `round(x, 1)` on exact rationals. -/
def pyRound1 (q : ℚ) : ℚ := (roundHalfEven (q * 10) : ℚ) / 10

/-- Handler for GET /game/stats: count the documents, short-circuit to all
zeros on an empty collection, otherwise run the `$group` pipeline with
`$avg`/`$avg`/`$max` and round the averages to one decimal place. On a
non-empty collection the pipeline always yields one group, so the handler's
trailing all-zero fallback is unreachable. -/
def get_stats (st : ServerState) : StatsResponse :=
  let total_games := st.game_sessions.length
  if total_games = 0 then
    { total_games := 0, avg_score := 0, avg_survival_time := 0, highest_score := 0 }
  else
    { total_games := total_games
      avg_score := pyRound1 (mongoAvg (st.game_sessions.map (fun s => (s.score : ℚ))))
      avg_survival_time := pyRound1 (mongoAvg (st.game_sessions.map (fun s => s.survival_time)))
      highest_score := mongoMax (st.game_sessions.map (fun s => s.score)) }

/-- A sequence of ingest requests with a common clock: returns the created
records of the successful calls, in order, with the final state. -/
def runIngests (now : ℚ) (ps : List Payload) (st : ServerState) :
    List GameSession × ServerState :=
  match ps with
  | [] => ([], st)
  | p :: rest =>
    match create_game_session now p st with
    | (IngestResult.created s, st1) =>
      let r := runIngests now rest st1
      (s :: r.1, r.2)
    | (IngestResult.validationError _, st1) => runIngests now rest st1

/-- Reachable-state invariant: every stored id was produced by the id supply
at some earlier counter value. -/
def GoodState (st : ServerState) : Prop :=
  ∀ s ∈ st.game_sessions, ∃ k, k < st.nextId ∧ s.session_id = uuidString k

deriving instance DecidableEq for Except

/-! Helper lemmas about the embedded operations. -/

theorem sortedByScore (l : List GameSession) :
    (l.insertionSort scoreDescRel).Pairwise scoreDescRel :=
  List.sorted_insertionSort scoreDescRel l

theorem get_leaderboard_neg {limit : Int} (st : ServerState) (h : limit < 0) :
    get_leaderboard limit st = Except.error MotorError.negativeLength := by
  simp [get_leaderboard, h]

theorem get_leaderboard_nonneg {limit : Int} (st : ServerState) (h : ¬ limit < 0) :
    get_leaderboard limit st =
      Except.ok ((((st.game_sessions.insertionSort scoreDescRel).take limit.toNat).enum).map
        (fun p => entryOf (p.1 + 1) p.2)) := by
  simp [get_leaderboard, h]

theorem get_leaderboard_ok_elim {limit : Int} {st : ServerState}
    {entries : List LeaderboardEntry} (h : get_leaderboard limit st = Except.ok entries) :
    entries = (((st.game_sessions.insertionSort scoreDescRel).take limit.toNat).enum).map
      (fun p => entryOf (p.1 + 1) p.2) := by
  by_cases hl : limit < 0
  · rw [get_leaderboard_neg st hl] at h
    exact absurd h (by simp)
  · rw [get_leaderboard_nonneg st hl] at h
    injection h with h2
    exact h2.symm

/-- C1: every page returned by the leaderboard query is sorted by score
descending (for positions `i < j` the score at `i` is at least the score at
`j`), and each entry's rank is its 1-based position within the returned page,
so rank 1 is the highest score of the result set. The rank is relative to the
page, not global. -/
theorem leaderboard_sorted_ranked (limit : Int) (st : ServerState)
    (entries : List LeaderboardEntry)
    (h : get_leaderboard limit st = Except.ok entries) :
    (∀ i j (hi : i < entries.length) (hj : j < entries.length), i < j →
      (entries.get ⟨j, hj⟩).score ≤ (entries.get ⟨i, hi⟩).score) ∧
    (∀ i (hi : i < entries.length), (entries.get ⟨i, hi⟩).rank = some ((i : Int) + 1)) := by
  have he := get_leaderboard_ok_elim h
  subst he
  refine ⟨?_, ?_⟩
  · intro i j hi hj hij
    have hi2 : i < ((st.game_sessions.insertionSort scoreDescRel).take limit.toNat).length := by
      simpa using hi
    have hj2 : j < ((st.game_sessions.insertionSort scoreDescRel).take limit.toNat).length := by
      simpa using hj
    have hiS : i < (st.game_sessions.insertionSort scoreDescRel).length := by
      rw [List.length_take] at hi2
      exact lt_of_lt_of_le hi2 inf_le_right
    have hjS : j < (st.game_sessions.insertionSort scoreDescRel).length := by
      rw [List.length_take] at hj2
      exact lt_of_lt_of_le hj2 inf_le_right
    have hp := List.pairwise_iff_getElem.1 (sortedByScore st.game_sessions) i j hiS hjS hij
    simp only [List.get_eq_getElem, List.getElem_map, List.getElem_enum, List.getElem_take,
      entryOf]
    exact hp
  · intro i hi
    simp [List.get_eq_getElem, List.getElem_map, List.getElem_enum, entryOf]

/-- C1 witness: a two-session store, queried with limit 10, yields the page
sorted 9-then-5 with ranks 1 and 2. -/
theorem leaderboard_sorted_ranked_witness :
    (∀ i j (hi : i < ([⟨uuidString 1, 9, 2, 2, some 1⟩, ⟨uuidString 0, 5, 1, 1, some 2⟩] :
        List LeaderboardEntry).length)
      (hj : j < ([⟨uuidString 1, 9, 2, 2, some 1⟩, ⟨uuidString 0, 5, 1, 1, some 2⟩] :
        List LeaderboardEntry).length), i < j →
      (([⟨uuidString 1, 9, 2, 2, some 1⟩, ⟨uuidString 0, 5, 1, 1, some 2⟩] :
        List LeaderboardEntry).get ⟨j, hj⟩).score ≤
      (([⟨uuidString 1, 9, 2, 2, some 1⟩, ⟨uuidString 0, 5, 1, 1, some 2⟩] :
        List LeaderboardEntry).get ⟨i, hi⟩).score) ∧
    (∀ i (hi : i < ([⟨uuidString 1, 9, 2, 2, some 1⟩, ⟨uuidString 0, 5, 1, 1, some 2⟩] :
        List LeaderboardEntry).length),
      (([⟨uuidString 1, 9, 2, 2, some 1⟩, ⟨uuidString 0, 5, 1, 1, some 2⟩] :
        List LeaderboardEntry).get ⟨i, hi⟩).rank = some ((i : Int) + 1)) :=
  leaderboard_sorted_ranked 10
    ⟨[⟨uuidString 0, 5, 1, 1, 0⟩, ⟨uuidString 1, 9, 2, 2, 0⟩], 2⟩
    [⟨uuidString 1, 9, 2, 2, some 1⟩, ⟨uuidString 0, 5, 1, 1, some 2⟩] rfl

/-- C3: on an empty session collection the stats query does not fail and
returns exactly the all-zero record. -/
theorem stats_empty (st : ServerState) (h : st.game_sessions = []) :
    get_stats st =
      { total_games := 0, avg_score := 0, avg_survival_time := 0, highest_score := 0 } := by
  simp [get_stats, h]

/-- C3 witness: the freshly initialised store. -/
theorem stats_empty_witness :
    get_stats ⟨[], 0⟩ =
      { total_games := 0, avg_score := 0, avg_survival_time := 0, highest_score := 0 } :=
  stats_empty ⟨[], 0⟩ rfl

/-- C4: an ingest payload with a missing required field or a value that does
not coerce to the declared type is rejected with a ValidationError and the
state, in particular the session collection, is returned unchanged: nothing
is written before the rejection. -/
theorem ingest_invalid_rejected (now : ℚ) (p : Payload) (st : ServerState)
    (h : p.score.bind coerceInt = none ∨ p.survival_time.bind coerceFloat = none ∨
      p.complexity_peak.bind coerceFloat = none) :
    ∃ e, create_game_session now p st = (IngestResult.validationError e, st) := by
  unfold create_game_session GameSessionCreate.validate
  rcases hs : p.score.bind coerceInt with _ | a <;>
    rcases ht : p.survival_time.bind coerceFloat with _ | b <;>
      rcases hc : p.complexity_peak.bind coerceFloat with _ | c <;>
        simp [hs, ht, hc] at h ⊢

/-- C4 witness: the test payload `{"score": "not-a-number"}` — wrong type for
`score`, missing `survival_time` and `complexity_peak` — is rejected and the
empty store stays empty. -/
theorem ingest_invalid_rejected_witness :
    ∃ e, create_game_session 0 ⟨some (Value.vstr "not-a-number"), none, none, []⟩ ⟨[], 0⟩ =
      (IngestResult.validationError e, ⟨[], 0⟩) :=
  ingest_invalid_rejected 0 ⟨some (Value.vstr "not-a-number"), none, none, []⟩ ⟨[], 0⟩
    (Or.inr (Or.inl rfl))

theorem le_foldl_max (xs : List Int) (a : Int) : a ≤ xs.foldl max a := by
  induction xs generalizing a with
  | nil => simp
  | cons y t ih =>
    rw [List.foldl_cons]
    exact le_trans (le_max_left a y) (ih (max a y))

theorem mem_le_foldl_max (xs : List Int) (a : Int) : ∀ x ∈ xs, x ≤ xs.foldl max a := by
  induction xs generalizing a with
  | nil => simp
  | cons y t ih =>
    intro x hx
    rw [List.foldl_cons]
    rcases List.mem_cons.1 hx with hx | hx
    · rw [hx]
      exact le_trans (le_max_right a y) (le_foldl_max t (max a y))
    · exact ih (max a y) x hx

theorem foldl_max_mem (xs : List Int) (a : Int) : xs.foldl max a = a ∨ xs.foldl max a ∈ xs := by
  induction xs generalizing a with
  | nil => left; rfl
  | cons y t ih =>
    rw [List.foldl_cons]
    rcases ih (max a y) with h | h
    · rcases max_choice a y with hm | hm
      · left
        rw [h, hm]
      · right
        rw [h, hm]
        exact List.mem_cons_self y t
    · right
      exact List.mem_cons_of_mem y h

theorem ratFloor_intCast (n : Int) : ratFloor ((n : ℚ)) = n := by
  simp [ratFloor, Rat.num_intCast, Rat.den_intCast]

theorem roundHalfEven_intCast (n : Int) : roundHalfEven ((n : ℚ)) = n := by
  simp only [roundHalfEven, ratFloor_intCast, sub_self]
  norm_num

theorem pyRound1_int (n : Int) : pyRound1 ((n : ℚ)) = (n : ℚ) := by
  unfold pyRound1
  have h : ((n : ℚ)) * 10 = (((n * 10 : Int)) : ℚ) := by push_cast; ring
  rw [h, roundHalfEven_intCast]
  push_cast
  ring

theorem mongoMax_cons (y : Int) (t : List Int) : mongoMax (y :: t) = t.foldl max y := rfl

theorem mongoMax_ge {xs : List Int} {x : Int} (hx : x ∈ xs) : x ≤ mongoMax xs := by
  cases xs with
  | nil => cases hx
  | cons y t =>
    rw [mongoMax_cons]
    rcases List.mem_cons.1 hx with h | h
    · rw [h]
      exact le_foldl_max t y
    · exact mem_le_foldl_max t y x h

theorem mongoMax_mem {xs : List Int} (h : xs ≠ []) : mongoMax xs ∈ xs := by
  cases xs with
  | nil => exact absurd rfl h
  | cons y t =>
    rw [mongoMax_cons]
    rcases foldl_max_mem t y with h2 | h2
    · rw [h2]
      exact List.mem_cons_self y t
    · exact List.mem_cons_of_mem y h2

/-- C2: on a non-empty collection the stats query returns the session count
as `total_games`, the mean score and mean survival time each rounded to one
decimal place, and as `highest_score` the raw (unrounded) maximum stored
score: a bound on every stored score that is itself a stored score. -/
theorem stats_nonempty (st : ServerState) (h : st.game_sessions ≠ []) :
    (get_stats st).total_games = st.game_sessions.length ∧
    (get_stats st).avg_score =
      pyRound1 ((st.game_sessions.map (fun s => (s.score : ℚ))).sum /
        (st.game_sessions.length : ℚ)) ∧
    (get_stats st).avg_survival_time =
      pyRound1 ((st.game_sessions.map (fun s => s.survival_time)).sum /
        (st.game_sessions.length : ℚ)) ∧
    (∀ s ∈ st.game_sessions, s.score ≤ (get_stats st).highest_score) ∧
    (∃ s ∈ st.game_sessions, (get_stats st).highest_score = s.score) := by
  have hlen : st.game_sessions.length ≠ 0 := by
    simpa [List.length_eq_zero] using h
  have hmax : (get_stats st).highest_score =
      mongoMax (st.game_sessions.map (fun s => s.score)) := by
    simp [get_stats, hlen]
  refine ⟨?_, ?_, ?_, ?_, ?_⟩
  · simp [get_stats, hlen]
  · simp [get_stats, hlen, mongoAvg]
  · simp [get_stats, hlen, mongoAvg]
  · intro s hs
    rw [hmax]
    exact mongoMax_ge (List.mem_map_of_mem _ hs)
  · have hmm := @mongoMax_mem (st.game_sessions.map (fun s => s.score))
      (by simpa using h)
    rcases List.mem_map.1 hmm with ⟨s, hs, heq⟩
    exact ⟨s, hs, by rw [hmax, heq]⟩

/-- C2 witness: stored scores 10, 20, 30 (survival times 1, 2, 3) give
total_games 3, avg_score 20.0, avg_survival_time 2.0 and highest_score 30. -/
theorem stats_nonempty_witness :
    ((get_stats ⟨[⟨uuidString 0, 10, 1, 1, 0⟩, ⟨uuidString 1, 20, 2, 1, 0⟩,
        ⟨uuidString 2, 30, 3, 1, 0⟩], 3⟩).total_games =
      ([⟨uuidString 0, 10, 1, 1, 0⟩, ⟨uuidString 1, 20, 2, 1, 0⟩,
        ⟨uuidString 2, 30, 3, 1, 0⟩] : List GameSession).length ∧
    (get_stats ⟨[⟨uuidString 0, 10, 1, 1, 0⟩, ⟨uuidString 1, 20, 2, 1, 0⟩,
        ⟨uuidString 2, 30, 3, 1, 0⟩], 3⟩).avg_score =
      pyRound1 ((([⟨uuidString 0, 10, 1, 1, 0⟩, ⟨uuidString 1, 20, 2, 1, 0⟩,
        ⟨uuidString 2, 30, 3, 1, 0⟩] : List GameSession).map
          (fun s => (s.score : ℚ))).sum / (3 : ℚ)) ∧
    (get_stats ⟨[⟨uuidString 0, 10, 1, 1, 0⟩, ⟨uuidString 1, 20, 2, 1, 0⟩,
        ⟨uuidString 2, 30, 3, 1, 0⟩], 3⟩).avg_survival_time =
      pyRound1 ((([⟨uuidString 0, 10, 1, 1, 0⟩, ⟨uuidString 1, 20, 2, 1, 0⟩,
        ⟨uuidString 2, 30, 3, 1, 0⟩] : List GameSession).map
          (fun s => s.survival_time)).sum / (3 : ℚ)) ∧
    (∀ s ∈ ([⟨uuidString 0, 10, 1, 1, 0⟩, ⟨uuidString 1, 20, 2, 1, 0⟩,
        ⟨uuidString 2, 30, 3, 1, 0⟩] : List GameSession),
      s.score ≤ (get_stats ⟨[⟨uuidString 0, 10, 1, 1, 0⟩, ⟨uuidString 1, 20, 2, 1, 0⟩,
        ⟨uuidString 2, 30, 3, 1, 0⟩], 3⟩).highest_score) ∧
    (∃ s ∈ ([⟨uuidString 0, 10, 1, 1, 0⟩, ⟨uuidString 1, 20, 2, 1, 0⟩,
        ⟨uuidString 2, 30, 3, 1, 0⟩] : List GameSession),
      (get_stats ⟨[⟨uuidString 0, 10, 1, 1, 0⟩, ⟨uuidString 1, 20, 2, 1, 0⟩,
        ⟨uuidString 2, 30, 3, 1, 0⟩], 3⟩).highest_score = s.score)) ∧
    get_stats ⟨[⟨uuidString 0, 10, 1, 1, 0⟩, ⟨uuidString 1, 20, 2, 1, 0⟩,
        ⟨uuidString 2, 30, 3, 1, 0⟩], 3⟩ =
      { total_games := 3, avg_score := 20, avg_survival_time := 2, highest_score := 30 } :=
  ⟨stats_nonempty ⟨[⟨uuidString 0, 10, 1, 1, 0⟩, ⟨uuidString 1, 20, 2, 1, 0⟩,
      ⟨uuidString 2, 30, 3, 1, 0⟩], 3⟩ (by decide), by
    have e1 : pyRound1 (20 : ℚ) = 20 := by
      have h := pyRound1_int 20
      norm_num at h
      exact h
    have e2 : pyRound1 (2 : ℚ) = 2 := by
      have h := pyRound1_int 2
      norm_num at h
      exact h
    have hm : mongoMax [10, 20, 30] = 30 := by decide
    simp only [get_stats]
    norm_num [mongoAvg, StatsResponse.mk.injEq, hm]
    exact ⟨e1, e2⟩⟩

/-- C6: with a valid (positive) limit a leaderboard page never exceeds the
limit in length; an absent limit behaves exactly as the default limit 10; and
on an empty store the query returns the empty sequence, not an error. -/
theorem leaderboard_limit_bound (st : ServerState) (n : Int) (hn : 0 < n)
    (entries : List LeaderboardEntry) (h : get_leaderboard n st = Except.ok entries) :
    entries.length ≤ n.toNat ∧
    leaderboard_request none st = leaderboard_request (some "10") st ∧
    (st.game_sessions = [] → get_leaderboard n st = Except.ok []) := by
  refine ⟨?_, rfl, ?_⟩
  · have he := get_leaderboard_ok_elim h
    subst he
    simp [List.length_take]
  · intro hemp
    have hn0 : ¬ n < 0 := by omega
    simp [get_leaderboard, hn0, hemp]

/-- C6 witness: limit 3 on the empty store. -/
theorem leaderboard_limit_bound_witness :
    ([] : List LeaderboardEntry).length ≤ (3 : Int).toNat ∧
    leaderboard_request none ⟨[], 0⟩ = leaderboard_request (some "10") ⟨[], 0⟩ ∧
    ((⟨[], 0⟩ : ServerState).game_sessions = [] → get_leaderboard 3 ⟨[], 0⟩ = Except.ok []) :=
  leaderboard_limit_bound ⟨[], 0⟩ 3 (by decide) [] rfl

/-- C5 counterexample: the claim says a non-positive `limit` fails with a
ValidationError, but `limit: int = 10` carries no positivity constraint —
the query string `limit=0` passes validation and the request succeeds with
an empty page. -/
theorem leaderboard_limit_zero_not_rejected :
    leaderboard_request (some "0") ⟨[], 0⟩ = LeaderboardResult.ok [] ∧
    leaderboard_request (some "0") ⟨[], 0⟩ ≠ LeaderboardResult.validationError := by
  exact ⟨by decide, by decide⟩

/-- C5 amended: a leaderboard request fails with a ValidationError exactly
when the `limit` query string is present and does not coerce to an integer;
non-positive integer limits pass validation — a negative limit surfaces as a
server-side error (the store client's ValueError), and any non-negative
limit (zero included) yields a successful, possibly empty, page. -/
theorem leaderboard_limit_validation (limitParam : Option String) (st : ServerState) :
    (leaderboard_request limitParam st = LeaderboardResult.validationError ↔
      ∃ s, limitParam = some s ∧ coerceInt (Value.vstr s) = none) ∧
    (∀ s n, limitParam = some s → coerceInt (Value.vstr s) = some n → n < 0 →
      leaderboard_request limitParam st = LeaderboardResult.serverError) ∧
    (∀ s n, limitParam = some s → coerceInt (Value.vstr s) = some n → 0 ≤ n →
      ∃ es, leaderboard_request limitParam st = LeaderboardResult.ok es) := by
  refine ⟨?_, ?_, ?_⟩
  · cases limitParam with
    | none =>
      simp [leaderboard_request, get_leaderboard, show ¬ (10 : Int) < 0 by omega]
    | some s =>
      cases hc : coerceInt (Value.vstr s) with
      | none => simp [leaderboard_request, hc]
      | some n =>
        by_cases hneg : n < 0
        · simp [leaderboard_request, hc, get_leaderboard_neg st hneg]
        · simp [leaderboard_request, hc, get_leaderboard_nonneg st hneg]
  · intro s n hs hcn hneg
    subst hs
    simp [leaderboard_request, hcn, get_leaderboard_neg st hneg]
  · intro s n hs hcn hpos
    subst hs
    have h0 : ¬ n < 0 := by omega
    exact ⟨(((st.game_sessions.insertionSort scoreDescRel).take n.toNat).enum).map
        (fun p => entryOf (p.1 + 1) p.2),
      by simp [leaderboard_request, hcn, get_leaderboard_nonneg st h0]⟩

/-- C5 witness for the amended claim: `limit=-2` parses as an integer, is
not rejected by validation, and fails as a server error instead. -/
theorem leaderboard_limit_validation_witness :
    leaderboard_request (some "-2") ⟨[], 0⟩ = LeaderboardResult.serverError :=
  (leaderboard_limit_validation (some "-2") ⟨[], 0⟩).2.1 "-2" (-2) rfl (by decide) (by decide)

theorem create_game_session_spec (now : ℚ) (p : Payload) (st : ServerState) :
    (∃ e, GameSessionCreate.validate p = Except.error e ∧
      create_game_session now p st = (IngestResult.validationError e, st)) ∨
    (∃ input, GameSessionCreate.validate p = Except.ok input ∧
      create_game_session now p st =
        (IngestResult.created
          ⟨uuidString st.nextId, input.score, input.survival_time, input.complexity_peak, now⟩,
         ⟨st.game_sessions ++
            [⟨uuidString st.nextId, input.score, input.survival_time, input.complexity_peak,
              now⟩],
          st.nextId + 1⟩)) := by
  cases hv : GameSessionCreate.validate p with
  | error e =>
    left
    exact ⟨e, rfl, by simp [create_game_session, hv]⟩
  | ok input =>
    right
    exact ⟨input, rfl, by simp [create_game_session, hv]⟩

/-- C9: each ingest call either succeeds and appends exactly one new document
to the session collection — leaving every previously stored document in place
unchanged — or is rejected and leaves the state untouched. No operation of
the service updates or deletes a stored session: the two queries take the
state purely as input, and this, the only mutating operation, only appends. -/
theorem ingest_frame (now : ℚ) (p : Payload) (st : ServerState) :
    (∃ s, (create_game_session now p st).1 = IngestResult.created s ∧
      (create_game_session now p st).2.game_sessions = st.game_sessions ++ [s] ∧
      (create_game_session now p st).2.game_sessions.take st.game_sessions.length =
        st.game_sessions) ∨
    (∃ e, (create_game_session now p st).1 = IngestResult.validationError e ∧
      (create_game_session now p st).2 = st) := by
  rcases create_game_session_spec now p st with ⟨e, hv, hc⟩ | ⟨input, hv, hc⟩
  · right
    exact ⟨e, by rw [hc], by rw [hc]⟩
  · left
    refine ⟨_, by rw [hc], by rw [hc], ?_⟩
    rw [hc]
    simp [List.take_left]

theorem uuidString_inj {a b : Nat} (h : uuidString a = uuidString b) : a = b := by
  have h2 : List.replicate (a + 1) 'u' = List.replicate (b + 1) 'u' :=
    congrArg String.data h
  have h3 := congrArg List.length h2
  simpa using h3

theorem runIngests_cons_created {now : ℚ} {p : Payload} {st st1 : ServerState}
    {s : GameSession} (rest : List Payload)
    (hc : create_game_session now p st = (IngestResult.created s, st1)) :
    runIngests now (p :: rest) st =
      (s :: (runIngests now rest st1).1, (runIngests now rest st1).2) := by
  simp only [runIngests, hc]

theorem runIngests_cons_invalid {now : ℚ} {p : Payload} {st st1 : ServerState}
    {e : ValidationError} (rest : List Payload)
    (hc : create_game_session now p st = (IngestResult.validationError e, st1)) :
    runIngests now (p :: rest) st = runIngests now rest st1 := by
  simp only [runIngests, hc]

theorem runIngests_ids (now : ℚ) (ps : List Payload) :
    ∀ st : ServerState,
      (∀ s ∈ (runIngests now ps st).1, ∃ k, st.nextId ≤ k ∧ s.session_id = uuidString k) ∧
      ((runIngests now ps st).1.map (fun s => s.session_id)).Nodup := by
  induction ps with
  | nil =>
    intro st
    simp [runIngests]
  | cons p rest ih =>
    intro st
    rcases create_game_session_spec now p st with ⟨e, hv, hc⟩ | ⟨input, hv, hc⟩
    · rw [runIngests_cons_invalid rest hc]
      exact ih st
    · rw [runIngests_cons_created rest hc]
      have hnext := ih ⟨st.game_sessions ++
        [⟨uuidString st.nextId, input.score, input.survival_time, input.complexity_peak, now⟩],
        st.nextId + 1⟩
      constructor
      · intro s hs
        rcases List.mem_cons.1 hs with hs | hs
        · exact ⟨st.nextId, le_refl _, by rw [hs]⟩
        · rcases hnext.1 s hs with ⟨k, hk, hks⟩
          have hk2 : st.nextId + 1 ≤ k := hk
          exact ⟨k, by omega, hks⟩
      · rw [List.map_cons]
        rw [List.nodup_cons]
        refine ⟨?_, hnext.2⟩
        intro hmem
        rcases List.mem_map.1 hmem with ⟨s, hs, hid⟩
        rcases hnext.1 s hs with ⟨k, hk, hks⟩
        have hk2 : st.nextId + 1 ≤ k := hk
        rw [hks] at hid
        have := uuidString_inj hid
        omega

/-- C8: across any sequence of ingest calls, the session ids generated for
the successful calls are pairwise distinct. (Each id is assigned exactly once,
at creation: `ingest_frame` shows the only mutation of the store is the append
of the newly built document.) -/
theorem session_ids_distinct (now : ℚ) (ps : List Payload) (st : ServerState) :
    ((runIngests now ps st).1.map (fun s => s.session_id)).Nodup :=
  (runIngests_ids now ps st).2

/-- C7: a valid ingest payload is stored with its three submitted fields and
a fresh `session_id`, and a later leaderboard query with a limit at least the
collection size returns an entry for that `session_id` — and every entry
bearing that `session_id` carries exactly the submitted `score`,
`survival_time` and `complexity_peak`. -/
theorem ingest_round_trip (now : ℚ) (p : Payload) (st : ServerState)
    (input : GameSessionCreate) (hst : GoodState st)
    (hv : GameSessionCreate.validate p = Except.ok input) :
    ∃ sess st1,
      create_game_session now p st = (IngestResult.created sess, st1) ∧
      sess.score = input.score ∧ sess.survival_time = input.survival_time ∧
      sess.complexity_peak = input.complexity_peak ∧
      ∀ n : Int, st1.game_sessions.length ≤ n.toNat →
        ∃ es, get_leaderboard n st1 = Except.ok es ∧
          (∃ e ∈ es, e.session_id = sess.session_id) ∧
          (∀ e ∈ es, e.session_id = sess.session_id →
            e.score = input.score ∧ e.survival_time = input.survival_time ∧
            e.complexity_peak = input.complexity_peak) := by
  rcases create_game_session_spec now p st with ⟨e, hv2, _⟩ | ⟨input2, hv2, hc⟩
  · rw [hv] at hv2
    exact Except.noConfusion hv2
  · rw [hv] at hv2
    injection hv2 with h2
    subst h2
    refine ⟨⟨uuidString st.nextId, input.score, input.survival_time, input.complexity_peak,
        now⟩,
      ⟨st.game_sessions ++ [⟨uuidString st.nextId, input.score, input.survival_time,
        input.complexity_peak, now⟩], st.nextId + 1⟩, hc, rfl, rfl, rfl, ?_⟩
    intro n hn
    set sess : GameSession :=
      ⟨uuidString st.nextId, input.score, input.survival_time, input.complexity_peak, now⟩
      with hsess
    have hn1 : st.game_sessions.length + 1 ≤ n.toNat := by
      have hn2 : (st.game_sessions ++ [sess]).length ≤ n.toNat := hn
      simpa [List.length_append] using hn2
    have hn0 : ¬ n < 0 := by omega
    refine ⟨_, get_leaderboard_nonneg _ hn0, ?_, ?_⟩
    · dsimp only
      have htake : ((st.game_sessions ++ [sess]).insertionSort scoreDescRel).take n.toNat =
          (st.game_sessions ++ [sess]).insertionSort scoreDescRel := by
        apply List.take_of_length_le
        rw [List.length_insertionSort, List.length_append]
        simpa using hn1
      rw [htake]
      have hmem : sess ∈ (st.game_sessions ++ [sess]).insertionSort scoreDescRel :=
        (List.mem_insertionSort _).2 (List.mem_append.2 (Or.inr (List.mem_singleton.2 rfl)))
      rcases List.mem_iff_getElem.1 hmem with ⟨i, hi, hgi⟩
      refine ⟨entryOf ((i : Int) + 1) sess, ?_, rfl⟩
      apply List.mem_map.2
      refine ⟨(i, sess), ?_, rfl⟩
      apply List.mem_enum_iff_getElem?.2
      show ((st.game_sessions ++ [sess]).insertionSort scoreDescRel)[(i : Nat)]? = some sess
      rw [List.getElem?_eq_getElem hi, hgi]
    · dsimp only
      intro e he hid
      rcases List.mem_map.1 he with ⟨q, hq, hqe⟩
      have hq2 := List.mem_enum_iff_getElem?.1 hq
      have hq3 : q.2 ∈ ((st.game_sessions ++ [sess]).insertionSort scoreDescRel).take
          n.toNat := List.getElem?_mem hq2
      have hq4 : q.2 ∈ st.game_sessions ++ [sess] :=
        (List.mem_insertionSort _).1 (List.mem_of_mem_take hq3)
      have hide : q.2.session_id = sess.session_id := by
        rw [← hqe] at hid
        simpa [entryOf] using hid
      rcases List.mem_append.1 hq4 with hold | hnew
      · rcases hst q.2 hold with ⟨k, hk, hks⟩
        rw [hks, hsess] at hide
        have hkk := uuidString_inj hide
        omega
      · have hq5 : q.2 = sess := List.mem_singleton.1 hnew
        rw [← hqe]
        simp [entryOf, hq5, hsess]

/-- C7 witness: ingest of `{score: 150, survival_time: 25, complexity_peak:
87}` into the fresh store, read back with any sufficient limit. -/
theorem ingest_round_trip_witness :
    ∃ sess st1,
      create_game_session 0
          ⟨some (Value.vint 150), some (Value.vfloat 25), some (Value.vfloat 87), []⟩
          ⟨[], 0⟩ =
        (IngestResult.created sess, st1) ∧
      sess.score = 150 ∧ sess.survival_time = 25 ∧
      sess.complexity_peak = 87 ∧
      ∀ n : Int, st1.game_sessions.length ≤ n.toNat →
        ∃ es, get_leaderboard n st1 = Except.ok es ∧
          (∃ e ∈ es, e.session_id = sess.session_id) ∧
          (∀ e ∈ es, e.session_id = sess.session_id →
            e.score = 150 ∧ e.survival_time = 25 ∧ e.complexity_peak = 87) :=
  ingest_round_trip 0
    ⟨some (Value.vint 150), some (Value.vfloat 25), some (Value.vfloat 87), []⟩
    ⟨[], 0⟩ ⟨150, 25, 87⟩ (by simp [GoodState]) rfl

/-- C10: every leaderboard entry is exactly the five-field projection —
`session_id`, `score`, `survival_time`, `complexity_peak` and the computed
`rank` — of some stored session; in particular the stored `timestamp` does
not occur in the response (the `LeaderboardEntry` record has no such field). -/
theorem leaderboard_entry_projection (limit : Int) (st : ServerState)
    (entries : List LeaderboardEntry) (h : get_leaderboard limit st = Except.ok entries) :
    ∀ i (hi : i < entries.length), ∃ s ∈ st.game_sessions,
      entries.get ⟨i, hi⟩ =
        { session_id := s.session_id, score := s.score, survival_time := s.survival_time,
          complexity_peak := s.complexity_peak, rank := some ((i : Int) + 1) } := by
  have he := get_leaderboard_ok_elim h
  subst he
  intro i hi
  have hi2 : i < ((st.game_sessions.insertionSort scoreDescRel).take limit.toNat).length := by
    simpa using hi
  have hiS : i < (st.game_sessions.insertionSort scoreDescRel).length := by
    rw [List.length_take] at hi2
    exact lt_of_lt_of_le hi2 inf_le_right
  refine ⟨(st.game_sessions.insertionSort scoreDescRel).get ⟨i, hiS⟩, ?_, ?_⟩
  · exact (List.mem_insertionSort _).1 (List.getElem_mem hiS)
  · simp [List.get_eq_getElem, List.getElem_map, List.getElem_enum, List.getElem_take,
      entryOf]

/-- C10 witness: a one-session store queried with limit 10; the single entry
is the timestamp-free projection of the stored session with rank 1. -/
theorem leaderboard_entry_projection_witness :
    ∃ s ∈ ([⟨uuidString 0, 5, 1, 2, 0⟩] : List GameSession),
      ([⟨uuidString 0, 5, 1, 2, some 1⟩] : List LeaderboardEntry).get ⟨0, by decide⟩ =
        { session_id := s.session_id, score := s.score, survival_time := s.survival_time,
          complexity_peak := s.complexity_peak, rank := some ((0 : Int) + 1) } :=
  leaderboard_entry_projection 10 ⟨[⟨uuidString 0, 5, 1, 2, 0⟩], 1⟩
    [⟨uuidString 0, 5, 1, 2, some 1⟩] rfl 0 (by decide)
